import Mathlib

/-!
Shallow embedding of the hybrid-quantum-maxcut repository.

Conventions of the embedding:
* A Python tuple/list of 0/1 ints (an assignment / partition) is a `List Nat`.
* Python indexing `xs[i]` raises `IndexError` when out of range, so evaluators
  that index are `Option`-valued (`List.get?`); a Python for-loop that indexes
  becomes a structural recursion that propagates `none` from the point of failure.
* Python dicts with distinct keys are association lists; `dict[k]` is
  `List.lookup` (KeyError becomes `none`).
* The Python floats appearing in this repository are `0.0`, `0.5` and exact
  sums/products of those with `±1`; every such value and operation is exact in
  IEEE double precision, so they are embedded as rationals `ℚ`.
* `(i >> j) & 1` is `(i >>> j) &&& 1`.
-/

namespace HQMC

/-! ## src/common/graph.py -/

/-- Constant `N_NODES = 4` from src/common/graph.py. -/
def N_NODES : Nat := 4

/-- Constant `EDGES = [(0, 1), (0, 2), (1, 3), (2, 3)]` from src/common/graph.py. -/
def EDGES : List (Nat × Nat) := [(0, 1), (0, 2), (1, 3), (2, 3)]

/-! ## src/classical/maxcut_bruteforce.py -/

/-- The loop body of `count_cut_size`: walk the edge list keeping the running
count; indexing failure (Python `IndexError`) aborts with `none`. -/
def countCutAux (partition : List Nat) : List (Nat × Nat) → Nat → Option Nat
  | [], acc => some acc
  | (u, v) :: es, acc =>
    match partition.get? u, partition.get? v with
    | some a, some b => countCutAux partition es (if a ≠ b then acc + 1 else acc)
    | _, _ => none

/-- Translation of `count_cut_size(partition, edges)` from src/classical/maxcut_bruteforce.py:
counts edges whose endpoints get different partition labels. -/
def count_cut_size (partition : List Nat) (edges : List (Nat × Nat)) : Option Nat :=
  countCutAux partition edges 0

/-- The expression `tuple((i >> j) & 1 for j in range(n))`: the length-`n` little-endian bit
tuple of `i`, used by both enumeration loops. -/
def bitsOf (n i : Nat) : List Nat :=
  (List.range n).map (fun j => (i >>> j) &&& 1)

/-- The brute-force main loop of src/classical/maxcut_bruteforce.py: fold over
`i in range(2 ** N_NODES)`, tracking `(max_cut_value, best_partition)`,
starting from `(0, None)` and updating on strict improvement. -/
def bruteforceAux : List Nat → Nat × Option (List Nat) → Option (Nat × Option (List Nat))
  | [], st => some st
  | i :: is, st =>
    match count_cut_size (bitsOf N_NODES i) EDGES with
    | some c => bruteforceAux is (if st.1 < c then (c, some (bitsOf N_NODES i)) else st)
    | none => none

/-- The pair `(max_cut_value, best_partition)` printed at the end of
src/classical/maxcut_bruteforce.py. -/
def bruteforce_result : Option (Nat × Option (List Nat)) :=
  bruteforceAux (List.range (2 ^ N_NODES)) (0, none)

/-! ## src/quantum/ising_mapping.py -/

/-- Translation of `maxcut_ising_terms()` from src/quantum/ising_mapping.py: local fields
`h = {i: 0.0 for i in range(N_NODES)}` and couplings `J[(min i j, max i j)] = 0.5`
for each edge, built in edge-list order. -/
def maxcut_ising_terms : List (Nat × ℚ) × List ((Nat × Nat) × ℚ) :=
  ((List.range N_NODES).map (fun i => (i, (0 : ℚ))),
   EDGES.map (fun e => (if e.1 < e.2 then (e.1, e.2) else (e.2, e.1), (0.5 : ℚ))))

/-! ## src/analysis/verify_ising_mapping.py -/

/-- The loop body of the verifier's `cut_size`: walk the shared `EDGES`
keeping the running count `size`. -/
def cutSizeAux (assignment : List Nat) : List (Nat × Nat) → Nat → Option Nat
  | [], acc => some acc
  | (u, v) :: es, acc =>
    match assignment.get? u, assignment.get? v with
    | some a, some b => cutSizeAux assignment es (if a ≠ b then acc + 1 else acc)
    | _, _ => none

/-- Translation of `cut_size(assignment)` from src/analysis/verify_ising_mapping.py. -/
def cut_size (assignment : List Nat) : Option Nat :=
  cutSizeAux assignment EDGES 0

/-- The expression `1 if bit == 0 else -1`: the spin convention 0 → +1, 1 → −1. -/
def toSpin (bit : Nat) : Int :=
  if bit = 0 then 1 else -1

/-- The sum `sum(h[i] * spins[i] for i in range(N_NODES))` with `h` a dict:
key lookup failure or index failure aborts. -/
def localFieldAux (spins : List Int) (h : List (Nat × ℚ)) : List Nat → ℚ → Option ℚ
  | [], acc => some acc
  | i :: is, acc =>
    match List.lookup i h, spins.get? i with
    | some hi, some si => localFieldAux spins h is (acc + hi * (si : ℚ))
    | _, _ => none

/-- The loop `for (i, j), coeff in J.items(): energy += coeff * spins[i] * spins[j]`. -/
def couplingAux (spins : List Int) : List ((Nat × Nat) × ℚ) → ℚ → Option ℚ
  | [], acc => some acc
  | (ij, c) :: rest, acc =>
    match spins.get? ij.1, spins.get? ij.2 with
    | some si, some sj => couplingAux spins rest (acc + c * (si : ℚ) * (sj : ℚ))
    | _, _ => none

/-- Translation of `ising_energy(assignment, h, J)` from src/analysis/verify_ising_mapping.py:
convert bits to spins, add local-field terms over `range(N_NODES)`, then add
the coupling terms of `J` in insertion order. -/
def ising_energy (assignment : List Nat) (h : List (Nat × ℚ))
    (J : List ((Nat × Nat) × ℚ)) : Option ℚ :=
  let spins := assignment.map toSpin
  match localFieldAux spins h (List.range N_NODES) 0 with
  | some e => couplingAux spins J e
  | none => none

/-- Translation of `bit_flip(assignment)`: `tuple(1 - bit for bit in assignment)`.  On the 0/1
bits the repository uses, `Nat` subtraction agrees with Python. -/
def bit_flip (assignment : List Nat) : List Nat :=
  assignment.map (fun bit => 1 - bit)

/-- Python tuple comparison `a < b`: lexicographic on components. -/
def tupleLt : List Nat → List Nat → Bool
  | [], [] => false
  | [], _ :: _ => true
  | _ :: _, [] => false
  | a :: as, b :: bs => if a < b then true else if b < a then false else tupleLt as bs

/-- Python `min(a, b)` on tuples: `b` if `b < a` else `a`. -/
def pymin (a b : List Nat) : List Nat :=
  if tupleLt b a then b else a

/-- Translation of `normalize_set(assignments)`: insert `min(a, bit_flip(a))` for each
assignment into a set (modelled as a duplicate-free list, insertion order). -/
def normalize_set (assignments : List (List Nat)) : List (List Nat) :=
  assignments.foldl
    (fun s a =>
      let m := pymin a (bit_flip a)
      if s.contains m then s else s ++ [m]) []

/-- Python set equality: same members, order irrelevant. -/
def setEqB (s₁ s₂ : List (List Nat)) : Bool :=
  s₁.all (fun x => s₂.contains x) && s₂.all (fun x => s₁.contains x)

/-- The verifier's enumeration `tuple((i >> j) & 1 ...) for i in range(2 ** N_NODES)`. -/
def assignments : List (List Nat) :=
  (List.range (2 ^ N_NODES)).map (bitsOf N_NODES)

/-- Table `all_cuts` of the verifier: assignment/cut pairs in enumeration order. -/
def all_cuts : List (List Nat) → Option (List (List Nat × Nat))
  | [] => some []
  | a :: rest =>
    match cut_size a, all_cuts rest with
    | some c, some l => some ((a, c) :: l)
    | _, _ => none

/-- Table `all_energies` of the verifier: assignment/energy pairs in enumeration order. -/
def all_energies (h : List (Nat × ℚ)) (J : List ((Nat × Nat) × ℚ)) :
    List (List Nat) → Option (List (List Nat × ℚ))
  | [] => some []
  | a :: rest =>
    match ising_energy a h J, all_energies h J rest with
    | some e, some l => some ((a, e) :: l)
    | _, _ => none

/-- Python `max` over a list of ints (`ValueError` on empty becomes `none`). -/
def pymaxNat : List Nat → Option Nat
  | [] => none
  | x :: xs => some (xs.foldl max x)

/-- Python `min` over a list of floats (exact here), `none` on empty. -/
def pyminRat : List ℚ → Option ℚ
  | [] => none
  | x :: xs => some (xs.foldl min x)

/-- The comprehension `[a for a, v in pairs.items() if v == x]`: keep, in
order, the assignments paired with value `x`. -/
def filterEq {α : Type} [DecidableEq α] (x : α) : List (List Nat × α) → List (List Nat)
  | [] => []
  | p :: rest => if p.2 = x then p.1 :: filterEq x rest else filterEq x rest

/-- The report printed by src/analysis/verify_ising_mapping.py:
`(max_cut, min_energy, max_cut_assignments, min_energy_assignments, match)`. -/
def report : Option (Nat × ℚ × List (List Nat) × List (List Nat) × Bool) :=
  match all_cuts assignments, all_energies maxcut_ising_terms.1 maxcut_ising_terms.2 assignments with
  | some cuts, some energies =>
    match pymaxNat (cuts.map (fun p => p.2)), pyminRat (energies.map (fun p => p.2)) with
    | some maxCut, some minEnergy =>
      let maxCutAssignments := filterEq maxCut cuts
      let minEnergyAssignments := filterEq minEnergy energies
      some (maxCut, minEnergy, maxCutAssignments, minEnergyAssignments,
        setEqB (normalize_set maxCutAssignments) (normalize_set minEnergyAssignments))
    | _, _ => none
  | _, _ => none

/-! ## src/quantum/qaoa_simulator.py and src/quantum/qaoa_hardware.py -/

/-- The loop body of `cut_size` in src/quantum/qaoa_simulator.py. -/
def simCutSizeAux (assignment : List Nat) : List (Nat × Nat) → Nat → Option Nat
  | [], acc => some acc
  | (u, v) :: es, acc =>
    match assignment.get? u, assignment.get? v with
    | some a, some b => simCutSizeAux assignment es (if a ≠ b then acc + 1 else acc)
    | _, _ => none

/-- Translation of `cut_size(assignment)` from src/quantum/qaoa_simulator.py (its own copy of
the same loop over the shared `EDGES`). -/
def simulatorCutSize (assignment : List Nat) : Option Nat :=
  simCutSizeAux assignment EDGES 0

/-- The loop body of `cut_size` in src/quantum/qaoa_hardware.py. -/
def hwCutSizeAux (assignment : List Nat) : List (Nat × Nat) → Nat → Option Nat
  | [], acc => some acc
  | (u, v) :: es, acc =>
    match assignment.get? u, assignment.get? v with
    | some a, some b => hwCutSizeAux assignment es (if a ≠ b then acc + 1 else acc)
    | _, _ => none

/-- Translation of `cut_size(assignment)` from src/quantum/qaoa_hardware.py (its own copy of
the same loop over the shared `EDGES`). -/
def hardwareCutSize (assignment : List Nat) : Option Nat :=
  hwCutSizeAux assignment EDGES 0

/-- The enumeration step of the verifier, parametrized by the module constant
`N_NODES` (the script hard-wires `n = N_NODES = 4`).  Python code may raise, so
the model is `Except`-valued; the loop body contains no guard or `raise`, so it
unconditionally produces all `2 ^ n` assignments. -/
def enumerate_assignments (n : Nat) : Except String (List (List Nat)) :=
  Except.ok ((List.range (2 ^ n)).map (bitsOf n))

/-! ## Derived notions used to state the claims -/

/-- A well-formed assignment for the shared graph: a 0/1 tuple of length
`N_NODES` (it covers every node index appearing in `EDGES`). -/
def isAssignment (A : List Nat) : Prop :=
  A.length = N_NODES ∧ ∀ b ∈ A, b ≤ 1

instance (A : List Nat) : Decidable (isAssignment A) := by
  unfold isAssignment; infer_instance

/-- The cut value of a well-formed assignment (defaults to 0 when the
evaluator raises; on well-formed assignments it never does). -/
def cutD (A : List Nat) : Nat :=
  (cut_size A).getD 0

/-- The Ising energy of a well-formed assignment under the terms of
`maxcut_ising_terms` (defaults to 0 when the evaluator raises). -/
def energyD (A : List Nat) : ℚ :=
  (ising_energy A maxcut_ising_terms.1 maxcut_ising_terms.2).getD 0

/-- Expected value of the verifier table `all_cuts` on the 16 enumerated
assignments (little-endian enumeration order). -/
def cutsTable : List (List Nat × Nat) :=
  [([0, 0, 0, 0], 0), ([1, 0, 0, 0], 2), ([0, 1, 0, 0], 2), ([1, 1, 0, 0], 2),
   ([0, 0, 1, 0], 2), ([1, 0, 1, 0], 2), ([0, 1, 1, 0], 4), ([1, 1, 1, 0], 2),
   ([0, 0, 0, 1], 2), ([1, 0, 0, 1], 4), ([0, 1, 0, 1], 2), ([1, 1, 0, 1], 2),
   ([0, 0, 1, 1], 2), ([1, 0, 1, 1], 2), ([0, 1, 1, 1], 2), ([1, 1, 1, 1], 0)]

/-- Expected value of the verifier table `all_energies` on the 16 enumerated
assignments. -/
def energiesTable : List (List Nat × ℚ) :=
  [([0, 0, 0, 0], 2), ([1, 0, 0, 0], 0), ([0, 1, 0, 0], 0), ([1, 1, 0, 0], 0),
   ([0, 0, 1, 0], 0), ([1, 0, 1, 0], 0), ([0, 1, 1, 0], -2), ([1, 1, 1, 0], 0),
   ([0, 0, 0, 1], 0), ([1, 0, 0, 1], -2), ([0, 1, 0, 1], 0), ([1, 1, 0, 1], 0),
   ([0, 0, 1, 1], 0), ([1, 0, 1, 1], 0), ([0, 1, 1, 1], 0), ([1, 1, 1, 1], 2)]

/-! ## Evaluation lemmas -/

/-- The local fields of the mapping, as a literal association list. -/
lemma h_terms_eval : maxcut_ising_terms.1 = [(0, 0), (1, 0), (2, 0), (3, 0)] := rfl

/-- The couplings of the mapping, as a literal association list. -/
lemma J_terms_eval :
    maxcut_ising_terms.2 = [((0, 1), 0.5), ((0, 2), 0.5), ((1, 3), 0.5), ((2, 3), 0.5)] := rfl

/-- The node-index range, as a literal list. -/
lemma range_N : List.range N_NODES = [0, 1, 2, 3] := rfl

lemma lookup_h_zero : List.lookup 0 maxcut_ising_terms.1 = some 0 := rfl

lemma lookup_h_one : List.lookup 1 maxcut_ising_terms.1 = some 0 := rfl

lemma lookup_h_two : List.lookup 2 maxcut_ising_terms.1 = some 0 := rfl

lemma lookup_h_three : List.lookup 3 maxcut_ising_terms.1 = some 0 := rfl

/-- Core identity, by exhausting the 16 bit patterns: on any 0/1 assignment of
length 4 the evaluators succeed and the Ising energy of `maxcut_ising_terms`
is `|E| / 2 - cut = 2 - cut`. -/
lemma cut_energy_identity : ∀ a b c d : Nat, a ≤ 1 → b ≤ 1 → c ≤ 1 → d ≤ 1 →
    ∃ k, cut_size [a, b, c, d] = some k ∧ k ≤ 4 ∧
      ising_energy [a, b, c, d] maxcut_ising_terms.1 maxcut_ising_terms.2 =
        some (2 - (k : ℚ)) := by
  intro a b c d ha hb hc hd
  interval_cases a <;> interval_cases b <;> interval_cases c <;> interval_cases d <;>
    refine ⟨_, rfl, by decide, ?_⟩ <;>
    norm_num [ising_energy, localFieldAux, couplingAux, J_terms_eval, range_N,
      lookup_h_zero, lookup_h_one, lookup_h_two, lookup_h_three, toSpin, List.get?]

/-- Any well-formed assignment is a 0/1 tuple of length 4. -/
lemma shape_of_isAssignment {A : List Nat} (hA : isAssignment A) :
    ∃ a b c d, A = [a, b, c, d] ∧ a ≤ 1 ∧ b ≤ 1 ∧ c ≤ 1 ∧ d ≤ 1 := by
  obtain ⟨hlen, hb⟩ := hA
  rcases A with _ | ⟨a, _ | ⟨b, _ | ⟨c, _ | ⟨d, _ | ⟨e, rest⟩⟩⟩⟩⟩ <;>
    simp [N_NODES] at hlen
  exact ⟨a, b, c, d, rfl, hb a (by simp), hb b (by simp), hb c (by simp), hb d (by simp)⟩

/-- On any assignment with at least 4 entries, all four duplicated cut
evaluators succeed and return the same count. -/
lemma cut_evaluators_cons4 (a b c d : Nat) (rest : List Nat) :
    ∃ k, cut_size (a :: b :: c :: d :: rest) = some k ∧
      count_cut_size (a :: b :: c :: d :: rest) EDGES = some k ∧
      simulatorCutSize (a :: b :: c :: d :: rest) = some k ∧
      hardwareCutSize (a :: b :: c :: d :: rest) = some k :=
  ⟨_, rfl, rfl, rfl, rfl⟩

/-- Bit-flip leaves the cut size of a 0/1 length-4 assignment unchanged. -/
lemma cut_size_flip16 : ∀ a b c d : Nat, a ≤ 1 → b ≤ 1 → c ≤ 1 → d ≤ 1 →
    cut_size (bit_flip [a, b, c, d]) = cut_size [a, b, c, d] := by
  intro a b c d ha hb hc hd
  interval_cases a <;> interval_cases b <;> interval_cases c <;> interval_cases d <;> decide

/-- The well-formed extraction of the core identity: on a well-formed
assignment, `cut_size` returns `some (cutD A)`, the cut is at most 4, and the
energy is `some (2 - cutD A)`. -/
lemma energy_spec {A : List Nat} (hA : isAssignment A) :
    cut_size A = some (cutD A) ∧ cutD A ≤ 4 ∧
      ising_energy A maxcut_ising_terms.1 maxcut_ising_terms.2 =
        some (2 - (cutD A : ℚ)) := by
  obtain ⟨a, b, c, d, rfl, ha, hb, hc, hd⟩ := shape_of_isAssignment hA
  obtain ⟨k, h₁, h₂, h₃⟩ := cut_energy_identity a b c d ha hb hc hd
  have hk : cutD [a, b, c, d] = k := by simp [cutD, h₁]
  exact ⟨by simp [hk, h₁], by simp [hk, h₂], by simp [hk, h₃]⟩

/-- The `energyD` form of the core identity. -/
lemma energyD_eq {A : List Nat} (hA : isAssignment A) :
    energyD A = 2 - (cutD A : ℚ) := by
  simp [energyD, (energy_spec hA).2.2]

/-- The 16 enumerated assignments, as literals. -/
lemma assignments_eval : assignments =
    [[0, 0, 0, 0], [1, 0, 0, 0], [0, 1, 0, 0], [1, 1, 0, 0],
     [0, 0, 1, 0], [1, 0, 1, 0], [0, 1, 1, 0], [1, 1, 1, 0],
     [0, 0, 0, 1], [1, 0, 0, 1], [0, 1, 0, 1], [1, 1, 0, 1],
     [0, 0, 1, 1], [1, 0, 1, 1], [0, 1, 1, 1], [1, 1, 1, 1]] := by decide

/-- The verifier's cut table evaluates to `cutsTable`. -/
lemma cuts_eval : all_cuts assignments = some cutsTable := by decide

/-- The verifier's energy table evaluates to `energiesTable`. -/
lemma energies_eval :
    all_energies maxcut_ising_terms.1 maxcut_ising_terms.2 assignments =
      some energiesTable := by
  rw [assignments_eval]
  norm_num [all_energies, energiesTable, ising_energy,
    localFieldAux, couplingAux, J_terms_eval, range_N, lookup_h_zero,
    lookup_h_one, lookup_h_two, lookup_h_three, toSpin, List.get?]

/-- The maximum over all 16 cut values is 4. -/
lemma max_cut_eval : pymaxNat (cutsTable.map (fun p => p.2)) = some 4 := by decide

/-- The minimum over all 16 energies is −2. -/
lemma min_energy_eval : pyminRat (energiesTable.map (fun p => p.2)) = some (-2) := by
  norm_num [energiesTable, pyminRat, min_def]

/-- The max-cut achievers, in enumeration order. -/
lemma filter_cuts_eval : filterEq 4 cutsTable = [[0, 1, 1, 0], [1, 0, 0, 1]] := by decide

/-- The min-energy achievers, in enumeration order. -/
lemma filter_energies_eval :
    filterEq (-2 : ℚ) energiesTable = [[0, 1, 1, 0], [1, 0, 0, 1]] := by
  norm_num [filterEq, energiesTable]

/-- The normalized achiever sets coincide. -/
lemma verdict_eval :
    setEqB (normalize_set [[0, 1, 1, 0], [1, 0, 0, 1]])
      (normalize_set [[0, 1, 1, 0], [1, 0, 0, 1]]) = true := by decide

/-- End-to-end evaluation of the verifier report. -/
lemma report_eval : report =
    some (4, -2, [[0, 1, 1, 0], [1, 0, 0, 1]], [[0, 1, 1, 0], [1, 0, 0, 1]], true) := by
  unfold report
  rw [cuts_eval, energies_eval]
  simp only [max_cut_eval, min_energy_eval, filter_cuts_eval, filter_energies_eval,
    verdict_eval]

end HQMC

namespace HQMC

/-- C1: For every 0/1 assignment of length `N_NODES` (covering all node
indices in `EDGES`), the Ising energy computed by `ising_energy` with the
terms of `maxcut_ising_terms` equals `|EDGES| / 2 - cut_size`; hence an
assignment attains the minimum Ising energy over all such assignments iff it
attains the maximum cut size. -/
theorem maxcut_ising_energy_identity (A : List Nat) (hA : isAssignment A) :
    ising_energy A maxcut_ising_terms.1 maxcut_ising_terms.2 =
      some ((EDGES.length : ℚ) / 2 - (cutD A : ℚ)) ∧
    ((∀ B, isAssignment B → energyD A ≤ energyD B) ↔
      (∀ B, isAssignment B → cutD B ≤ cutD A)) := by
  constructor
  · rw [(energy_spec hA).2.2]
    norm_num [EDGES]
  · constructor
    · intro h B hB
      have h1 := h B hB
      rw [energyD_eq hA, energyD_eq hB] at h1
      have h2 : (cutD B : ℚ) ≤ (cutD A : ℚ) := by linarith
      exact_mod_cast h2
    · intro h B hB
      have h1 : (cutD B : ℚ) ≤ (cutD A : ℚ) := by exact_mod_cast h B hB
      rw [energyD_eq hA, energyD_eq hB]
      linarith

/-- Witness for C1 at the optimal assignment (0,1,1,0). -/
theorem maxcut_ising_energy_identity_witness :
    ising_energy [0, 1, 1, 0] maxcut_ising_terms.1 maxcut_ising_terms.2 =
      some ((EDGES.length : ℚ) / 2 - (cutD [0, 1, 1, 0] : ℚ)) ∧
    ((∀ B, isAssignment B → energyD [0, 1, 1, 0] ≤ energyD B) ↔
      (∀ B, isAssignment B → cutD B ≤ cutD [0, 1, 1, 0])) :=
  maxcut_ising_energy_identity [0, 1, 1, 0] (by decide)

/-- C2: On the fixed graph, the verifier's exhaustive report finds maximum
cut 4 and minimum energy −2, the argmax-cut and argmin-energy assignment
sets coincide (already equal before bit-flip normalization here), and the
reported boolean verdict is `true`. -/
theorem verifier_sets_match : report =
    some (4, -2, [[0, 1, 1, 0], [1, 0, 0, 1]], [[0, 1, 1, 0], [1, 0, 0, 1]], true) :=
  report_eval

/-- C3 counterexample: the assignments (0,0,1,1) and (1,1,0,0) named by the
claim cut only 2 of the 4 edges, while the maximum cut is 4, so they do not
achieve it. -/
theorem maxcut_claimed_achievers_false :
    bruteforce_result = some (4, some [0, 1, 1, 0]) ∧
    count_cut_size [0, 0, 1, 1] EDGES = some 2 ∧
    count_cut_size [1, 1, 0, 0] EDGES = some 2 ∧
    count_cut_size [0, 0, 1, 1] EDGES ≠ some 4 := by decide

/-- C3 (amended): exhaustive cut-size evaluation over all 16 assignments
yields maximum cut value 4, achieved by the pair (0,1,1,0) and its bit-flip
(1,0,0,1). -/
theorem maxcut_value_and_achievers :
    (all_cuts assignments).map (fun l => pymaxNat (l.map (fun p => p.2))) =
      some (some 4) ∧
    bruteforce_result = some (4, some [0, 1, 1, 0]) ∧
    cut_size [0, 1, 1, 0] = some 4 ∧ cut_size [1, 0, 0, 1] = some 4 ∧
    bit_flip [0, 1, 1, 0] = [1, 0, 0, 1] := by decide

/-- C4: the cut size is invariant under global bit-flip, for every 0/1
assignment of length `N_NODES`. -/
theorem cut_size_bit_flip_invariant (A : List Nat) (hA : isAssignment A) :
    cut_size (bit_flip A) = cut_size A := by
  obtain ⟨a, b, c, d, rfl, ha, hb, hc, hd⟩ := shape_of_isAssignment hA
  exact cut_size_flip16 a b c d ha hb hc hd

/-- Witness for C4 at (0,1,1,0). -/
theorem cut_size_bit_flip_invariant_witness :
    cut_size (bit_flip [0, 1, 1, 0]) = cut_size [0, 1, 1, 0] :=
  cut_size_bit_flip_invariant [0, 1, 1, 0] (by decide)

/-- C5: with the terms of `maxcut_ising_terms` (so h ≡ 0), the Ising energy
is invariant under global bit-flip, for every 0/1 assignment of length
`N_NODES`. -/
theorem ising_energy_bit_flip_invariant (A : List Nat) (hA : isAssignment A) :
    ising_energy (bit_flip A) maxcut_ising_terms.1 maxcut_ising_terms.2 =
      ising_energy A maxcut_ising_terms.1 maxcut_ising_terms.2 := by
  obtain ⟨a, b, c, d, rfl, ha, hb, hc, hd⟩ := shape_of_isAssignment hA
  have hA2 : isAssignment (bit_flip [a, b, c, d]) := by
    refine ⟨by simp [bit_flip, N_NODES], ?_⟩
    intro x hx
    simp [bit_flip] at hx
    rcases hx with rfl | rfl | rfl | rfl <;> omega
  have hA1 : isAssignment [a, b, c, d] := by
    refine ⟨by simp [N_NODES], ?_⟩
    intro x hx
    simp at hx
    rcases hx with rfl | rfl | rfl | rfl <;> assumption
  have hflip : cut_size (bit_flip [a, b, c, d]) = cut_size [a, b, c, d] :=
    cut_size_flip16 a b c d ha hb hc hd
  have hcd : cutD (bit_flip [a, b, c, d]) = cutD [a, b, c, d] := by
    simp [cutD, hflip]
  rw [(energy_spec hA2).2.2, (energy_spec hA1).2.2, hcd]

/-- Witness for C5 at (0,1,1,0). -/
theorem ising_energy_bit_flip_invariant_witness :
    ising_energy (bit_flip [0, 1, 1, 0]) maxcut_ising_terms.1 maxcut_ising_terms.2 =
      ising_energy [0, 1, 1, 0] maxcut_ising_terms.1 maxcut_ising_terms.2 :=
  ising_energy_bit_flip_invariant [0, 1, 1, 0] (by decide)

/-- C6: `maxcut_ising_terms` returns local fields that are 0 on every node
index below `N_NODES` (and whose key list is exactly `0..N_NODES-1`), and
couplings that assign +0.5 to each edge, with canonical smaller-first keys
whose list is exactly the edge list, one key per edge. -/
theorem maxcut_ising_terms_shape :
    (∀ i, i < N_NODES → List.lookup i maxcut_ising_terms.1 = some 0) ∧
    maxcut_ising_terms.1.map (fun p => p.1) = List.range N_NODES ∧
    maxcut_ising_terms.2.map (fun p => p.1) = EDGES ∧
    (∀ p ∈ maxcut_ising_terms.2, p.1.1 < p.1.2 ∧ p.2 = 0.5) := by
  refine ⟨?_, rfl, rfl, ?_⟩
  · intro i hi
    norm_num [N_NODES] at hi
    interval_cases i
    · exact lookup_h_zero
    · exact lookup_h_one
    · exact lookup_h_two
    · exact lookup_h_three
  · intro p hp
    rw [J_terms_eval] at hp
    fin_cases hp <;> norm_num

/-- Witness for C6 at node 0. -/
theorem maxcut_ising_terms_shape_witness :
    List.lookup 0 maxcut_ising_terms.1 = some 0 :=
  maxcut_ising_terms_shape.1 0 (by decide)

/-- C7 counterexample: a length-5 assignment, whose length differs from
`N_NODES`, is silently accepted: both cut evaluators return a count rather
than failing. -/
theorem cut_size_silent_on_long_assignment :
    cut_size [0, 0, 1, 1, 0] = some 2 ∧
    count_cut_size [0, 0, 1, 1, 0] EDGES = some 2 ∧
    [0, 0, 1, 1, 0].length ≠ N_NODES := by decide

/-- C7 (amended): the cut evaluators assert nothing about the declared node
count; they fail (an `IndexError`, modelled as `none`) exactly when the
assignment is too short to cover the node indices of `EDGES`, i.e. exactly
when its length is < `N_NODES` = 4; longer assignments are silently
accepted. -/
theorem cut_size_none_iff_short (A : List Nat) :
    (cut_size A = none ↔ A.length < N_NODES) ∧
    (count_cut_size A EDGES = none ↔ A.length < N_NODES) := by
  rcases A with _ | ⟨a, _ | ⟨b, _ | ⟨c, _ | ⟨d, rest⟩⟩⟩⟩
  · exact ⟨by simp [show cut_size [] = none from rfl, N_NODES],
      by simp [show count_cut_size [] EDGES = none from rfl, N_NODES]⟩
  · exact ⟨by simp [show cut_size [a] = none from rfl, N_NODES],
      by simp [show count_cut_size [a] EDGES = none from rfl, N_NODES]⟩
  · exact ⟨by simp [show cut_size [a, b] = none from rfl, N_NODES],
      by simp [show count_cut_size [a, b] EDGES = none from rfl, N_NODES]⟩
  · exact ⟨by simp [show cut_size [a, b, c] = none from rfl, N_NODES],
      by simp [show count_cut_size [a, b, c] EDGES = none from rfl, N_NODES]⟩
  · obtain ⟨k, h1, h2, h3, h4⟩ := cut_evaluators_cons4 a b c d rest
    constructor
    · rw [h1]
      simp [N_NODES]
    · rw [h2]
      simp [N_NODES]

/-- C8 counterexample: invoked at node count 25 (far beyond the documented
N ≤ 20 limit) the verifier's enumeration step reports no error: it succeeds
unconditionally. -/
theorem enumeration_unguarded :
    20 < 25 ∧ (enumerate_assignments 25).isOk = true :=
  ⟨by decide, rfl⟩

/-- C8 (amended): the exhaustive enumeration has no scale guard at all: at
every node count n it raises nothing and produces all 2 ^ n assignments. -/
theorem enumeration_never_guards (n : Nat) :
    ∃ l, enumerate_assignments n = Except.ok l ∧ l.length = 2 ^ n :=
  ⟨_, rfl, by simp [bitsOf]⟩

/-- C9: with an empty edge list the cut evaluator returns 0 for every
assignment, including the trivial empty one; and the Ising energy with an
empty coupling list is the local-field sum alone, which is 0 since the
mapping sets h ≡ 0. -/
theorem empty_edges_zero_cut_and_energy :
    (∀ A : List Nat, count_cut_size A [] = some 0) ∧
    (∀ A : List Nat, N_NODES ≤ A.length →
      ising_energy A maxcut_ising_terms.1 [] = some 0) := by
  constructor
  · intro A
    rfl
  · intro A hlen
    rcases A with _ | ⟨a, _ | ⟨b, _ | ⟨c, _ | ⟨d, rest⟩⟩⟩⟩ <;> simp [N_NODES] at hlen
    simp [ising_energy, localFieldAux, couplingAux, range_N, lookup_h_zero,
      lookup_h_one, lookup_h_two, lookup_h_three, List.get?]

/-- Witness for C9 at the empty assignment and at (0,0,0,0). -/
theorem empty_edges_zero_cut_and_energy_witness :
    count_cut_size [] [] = some 0 ∧
    ising_energy [0, 0, 0, 0] maxcut_ising_terms.1 [] = some 0 :=
  ⟨empty_edges_zero_cut_and_energy.1 [],
   empty_edges_zero_cut_and_energy.2 [0, 0, 0, 0] (by decide)⟩

/-- C10: the four duplicated cut evaluators compute the same function: on
every assignment covering the node indices of the shared edge list, all four
return the same count. -/
theorem four_cut_evaluators_agree (A : List Nat) (h : N_NODES ≤ A.length) :
    ∃ k, count_cut_size A EDGES = some k ∧ cut_size A = some k ∧
      simulatorCutSize A = some k ∧ hardwareCutSize A = some k := by
  rcases A with _ | ⟨a, _ | ⟨b, _ | ⟨c, _ | ⟨d, rest⟩⟩⟩⟩ <;> simp [N_NODES] at h
  obtain ⟨k, h1, h2, h3, h4⟩ := cut_evaluators_cons4 a b c d rest
  exact ⟨k, h2, h1, h3, h4⟩

/-- Witness for C10 at (0,1,1,0). -/
theorem four_cut_evaluators_agree_witness :
    ∃ k, count_cut_size [0, 1, 1, 0] EDGES = some k ∧ cut_size [0, 1, 1, 0] = some k ∧
      simulatorCutSize [0, 1, 1, 0] = some k ∧ hardwareCutSize [0, 1, 1, 0] = some k :=
  four_cut_evaluators_agree [0, 1, 1, 0] (by decide)

end HQMC
